import Mathlib

/-!
Verification of the SOCIAL_MEDIA_FASTAPI repository's list/content-negotiation
pipeline against its natural-language specification.

The Python source (src/utils.py, src/routers/users.py, src/routers/posts.py,
src/routers/comments.py) is shallowly embedded below:

* Python `str` values become `String`; `None`-able values become `Option _`.
* Python `float` quality values (only ever produced by `float()` on short
  decimal literals in `q=` parameters) are modelled as `Rat`; on the decimal
  literals compared by this code the order of the resulting doubles agrees
  with the rational order.
* `datetime` values are modelled as abstract integer instants (`Int`); only
  their linear order and maxima matter to the code under study.  The final
  `strftime` rendering to an HTTP-date string (injective on instants) is not
  modelled.
* Python `list.sort(key=k, reverse=...)` is a stable sort; it is embedded as
  `List.insertionSort` with the corresponding total preorder, which is also
  stable, and any two stable sorts under the same preorder agree.
* Raising `HTTPException(status_code, detail)` becomes returning
  `Except.error` of an `HTTPErr`.
* The Python string helpers (`split`, `strip`, `lower`, `startswith`,
  `replace`, `in`) are re-implemented structurally over character lists so
  that every definition evaluates by kernel reduction.
-/

/-! ## Python string primitives -/

/-- Python `needle in hay` substring test, on explicit character lists. -/
def charsContain (n : List Char) : List Char → Bool
  | [] => n.isEmpty
  | c :: t => n.isPrefixOf (c :: t) || charsContain n t

/-- Python `needle in hay` substring test on strings. -/
def strContains (hay needle : String) : Bool :=
  charsContain needle.data hay.data

/-- Python `str.lower()`.  The headers and field values compared by this
repository are ASCII, so only the ASCII case mapping is modelled. -/
def pyLower (s : String) : String :=
  ⟨s.data.map Char.toLower⟩

/-- Whitespace stripped by Python `str.strip()` (the forms that can occur in
an HTTP header value). -/
def pySpace (c : Char) : Bool :=
  c = ' ' || c = '\t' || c = '\n' || c = '\r'

/-- Python `str.strip()` with no argument: drop whitespace at both ends. -/
def pyStrip (s : String) : String :=
  ⟨(((s.data.dropWhile pySpace).reverse).dropWhile pySpace).reverse⟩

/-- Python `str.startswith(pre)`. -/
def pyStartsWith (s pre : String) : Bool :=
  pre.data.isPrefixOf s.data

/-- Python `s[n:]` on a string. -/
def pyDrop (s : String) (n : Nat) : String :=
  ⟨s.data.drop n⟩

/-- Auxiliary for `pySplitOn`: split a character list at a separator char. -/
def splitCharAux (sep : Char) : List Char → List Char → List (List Char)
  | [], acc => [acc.reverse]
  | x :: xs, acc =>
      if x = sep then acc.reverse :: splitCharAux sep xs []
      else splitCharAux sep xs (x :: acc)

/-- Python `str.split(sep)` for a one-character separator (the only separators
this repository uses are `","`, `";"` and `"."`): `"a,,b" ↦ ["a","","b"]`,
`"" ↦ [""]`. -/
def pySplitOn (s : String) (sep : Char) : List String :=
  (splitCharAux sep s.data []).map (fun l => ⟨l⟩)

/-- Truthiness of a Python optional string (`if s:`): `None` and `""` are
falsy. -/
def pyTruthyStr : Option String → Bool
  | none => false
  | some s => s ≠ ""

/-- Value of a digit string, e.g. `natOfDigits "17".data = 17` (meaningful
when all characters are decimal digits). -/
def natOfDigits (s : List Char) : Nat :=
  s.foldl (fun acc c => acc * 10 + (c.toNat - '0'.toNat)) 0

/-- Python `float(s)` on the strings this repository feeds it (`q=` values):
leading/trailing whitespace, an optional sign, and a plain decimal literal
with an optional fractional part, evaluated exactly as a rational.
Exponent, `inf`/`nan` and underscore forms are not modelled (no header this
code negotiates uses them); any other string fails, as `float` raises
`ValueError`. -/
def pyFloat? (s : String) : Option Rat :=
  let t := pyStrip s
  let su : Int × String :=
    if pyStartsWith t "-" then (-1, pyDrop t 1)
    else if pyStartsWith t "+" then (1, pyDrop t 1) else (1, t)
  match pySplitOn su.2 '.' with
  | [a] =>
      if a ≠ "" && a.data.all Char.isDigit then
        some (mkRat (su.1 * (natOfDigits a.data : Int)) 1)
      else none
  | [a, b] =>
      if (a ≠ "" || b ≠ "") && a.data.all Char.isDigit && b.data.all Char.isDigit then
        some (mkRat (su.1 *
          ((natOfDigits a.data * 10 ^ b.data.length + natOfDigits b.data : Nat) : Int))
          (10 ^ b.data.length))
      else none
  | _ => none

/-- Python `max(l, default=d)` on integer instants: `d` if the list is empty,
otherwise the maximum of the elements. -/
def pyMax (l : List Int) (d : Int) : Int :=
  match l with
  | [] => d
  | x :: xs => xs.foldl max x

example : pyFloat? "0.8" = some (mkRat 4 5) := by decide
example : pyFloat? "abc" = none := by decide
example : pyFloat? "1.0" = some 1 := by decide
example : pyFloat? " 0.9" = some (mkRat 9 10) := by decide
example : pyFloat? "" = none := by decide
example : strContains "application/json" "json" = true := by decide
example : strContains "application/json" "xml" = false := by decide
example : pySplitOn "a,,b" ',' = ["a", "", "b"] := by decide
example : pySplitOn "" ',' = [""] := by decide
example : pyStrip "  gzip " = "gzip" := by decide
example : pyMax [10, 20] 0 = 20 := by decide
example : pyMax [] 7 = 7 := by decide

/-! ## src/utils.py: remove_accents -/

/-- The combining characters produced by the modelled fragment of the Unicode
NFD table. -/
def combGrave : Char := Char.ofNat 0x300

/-- Combining acute accent (U+0301). -/
def combAcute : Char := Char.ofNat 0x301

/-- Combining circumflex accent (U+0302). -/
def combCirc : Char := Char.ofNat 0x302

/-- Combining diaeresis (U+0308). -/
def combDiaeresis : Char := Char.ofNat 0x308

/-- Combining cedilla (U+0327). -/
def combCedilla : Char := Char.ofNat 0x327

/-- Fragment of `unicodedata.normalize('NFD', ·)` acting on one character:
NFD is the identity on ASCII; the precomposed Latin letters that occur in
this repository's French-oriented data decompose into base letter plus
combining mark.  Precomposed characters outside this fragment are left as
themselves (a modelling restriction, not exercised by the claims). -/
def nfdChar (c : Char) : List Char :=
  if c.toNat < 128 then [c]
  else if c = 'à' then ['a', combGrave]
  else if c = 'â' then ['a', combCirc]
  else if c = 'ç' then ['c', combCedilla]
  else if c = 'è' then ['e', combGrave]
  else if c = 'é' then ['e', combAcute]
  else if c = 'ê' then ['e', combCirc]
  else if c = 'ë' then ['e', combDiaeresis]
  else if c = 'î' then ['i', combCirc]
  else if c = 'ï' then ['i', combDiaeresis]
  else if c = 'ô' then ['o', combCirc]
  else if c = 'ù' then ['u', combGrave]
  else if c = 'û' then ['u', combCirc]
  else if c = 'ü' then ['u', combDiaeresis]
  else if c = 'À' then ['A', combGrave]
  else if c = 'É' then ['E', combAcute]
  else if c = 'Ç' then ['C', combCedilla]
  else [c]

/-- `unicodedata.category(c) == 'Mn'` for the characters reachable in this
model: the combining diacritical marks block U+0300..U+036F (all of category
Mn). -/
def charIsMn (c : Char) : Bool :=
  decide (0x300 ≤ c.toNat) && decide (c.toNat ≤ 0x36F)

/-- src/utils.py `remove_accents`: NFD-decompose, then drop category-Mn
characters. -/
def remove_accents (s : String) : String :=
  ⟨((s.data.map nfdChar).flatten).filter (fun c => !charIsMn c)⟩

/-- The Python exceptions this embedding distinguishes. -/
inductive PyExc where
  | typeError : PyExc
deriving DecidableEq

/-- `remove_accents` as a Python call on a possibly-`None` argument:
`unicodedata.normalize('NFD', None)` raises `TypeError`, so the function
raises on `None`; on a `str` it returns normally. -/
def removeAccentsPy : Option String → Except PyExc String
  | none => .error .typeError
  | some s => .ok (remove_accents s)

example : remove_accents "café" = "cafe" := by decide
example : remove_accents "" = "" := by decide
example : remove_accents "Émile" = "Emile" := by decide

/-! ## src/utils.py: parse_accept_header and choose_encoding -/

/-- One `;`-separated parameter update in `parse_accept_header`'s q loop:
`if param.strip().startswith("q="): try: q = float(...) except: pass` —
on parse failure the previous q is kept. -/
def acceptQStep (q : Rat) (param : String) : Rat :=
  let p := pyStrip param
  if pyStartsWith p "q=" then
    match pyFloat? (pyDrop p 2) with
    | some v => v
    | none => q
  else q

/-- One Accept entry `media-type;params` parsed to `(media_type, q)`,
with q defaulting to 1.0. -/
def parseAcceptEntry (part : String) : String × Rat :=
  let parts := pySplitOn (pyStrip part) ';'
  (pyStrip (parts.headD ""), parts.tail.foldl acceptQStep 1)

/-- The `items` list built by `parse_accept_header` from the comma-separated
Accept header. -/
def acceptItems (accept : String) : List (String × Rat) :=
  (pySplitOn accept ',').map parseAcceptEntry

/-- The order used by `items.sort(key=lambda x: x[1], reverse=True)`:
descending by q; the sort is stable. -/
def qGE (a b : String × Rat) : Prop := b.2 ≤ a.2

instance : DecidableRel qGE := fun a b => inferInstanceAs (Decidable (b.2 ≤ a.2))

instance : IsTotal (String × Rat) qGE := ⟨fun a b => le_total b.2 a.2⟩

instance : IsTrans (String × Rat) qGE := ⟨fun _ _ _ hab hbc => le_trans hbc hab⟩

/-- `items.sort(...); best_media = items[0][0]`: the stable descending sort
followed by taking the head (the default is never reached: `items` is
nonempty whenever the header string is). -/
def bestMedia (accept : String) : String × Rat :=
  ((acceptItems accept).insertionSort qGE).headD ("", 1)

/-- The version branch of `parse_accept_header`. -/
def mkVersion (media : String) : String :=
  if strContains media "vnd.myapp.v1" then "v1"
  else if strContains media "vnd.myapp.v2" then "v2"
  else "default"

/-- The format branch of `parse_accept_header`: contains `"xml"` (lowercased)
→ xml; else contains `"json"` → json; else the initial value json. -/
def mkFormat (media : String) : String :=
  if strContains (pyLower media) "xml" then "application/xml"
  else if strContains (pyLower media) "json" then "application/json"
  else "application/json"

/-- src/utils.py `parse_accept_header` (returns `(version, format_type)`).
The `accept = None` default and the falsy empty string both skip the parse. -/
def parse_accept_header (accept : Option String) : String × String :=
  match accept with
  | none => ("default", "application/json")
  | some a =>
      if a = "" then ("default", "application/json")
      else (mkVersion (bestMedia a).1, mkFormat (bestMedia a).1)

/-- One parameter update in `choose_encoding`'s q loop: on parse failure
`except ValueError: q = 0.0` — unlike `parse_accept_header`. -/
def encodingQStep (q : Rat) (param : String) : Rat :=
  let p := pyStrip param
  if pyStartsWith p "q=" then
    match pyFloat? (pyDrop p 2) with
    | some v => v
    | none => 0
  else q

/-- One Accept-Encoding entry parsed to `(alg.lower(), q)`; when the entry
has no `";"` the whole (stripped) part is the algorithm with q = 1.0. -/
def parseEncodingEntry (part : String) : String × Rat :=
  let p := pyStrip part
  if strContains p ";" then
    let pieces := pySplitOn p ';'
    (pyLower (pieces.headD ""), pieces.tail.foldl encodingQStep 1)
  else (pyLower p, 1)

/-- The `encodings` list built by `choose_encoding`. -/
def encodingItems (h : String) : List (String × Rat) :=
  (pySplitOn h ',').map parseEncodingEntry

/-- `alg in ["br", "gzip", "identity"]`. -/
def recognizedAlg (a : String) : Bool :=
  a == "br" || a == "gzip" || a == "identity"

/-- src/utils.py `choose_encoding`: falsy header → identity; otherwise parse,
stable-sort descending by q, return the first recognized algorithm, default
identity. -/
def choose_encoding (accept_encoding : String) : String :=
  if accept_encoding = "" then "identity"
  else
    match ((encodingItems accept_encoding).insertionSort qGE).find?
        (fun e => recognizedAlg e.1) with
    | some e => e.1
    | none => "identity"

example : parse_accept_header (some "application/xml;q=0.9, application/json;q=1.0") =
    ("default", "application/json") := by decide
example : choose_encoding "br;q=0.5, gzip;q=0.8" = "gzip" := by decide
example : choose_encoding "" = "identity" := by decide
example : choose_encoding "gzip" = "gzip" := by decide
example : parseEncodingEntry "gzip;q=abc" = ("gzip", 0) := by decide
example : parseAcceptEntry "text/html;q=abc" = ("text/html", 1) := by decide
example : choose_encoding "gzip;q=abc, br" = "br" := by decide

/-! ## Selection properties of the stable descending q-sort -/

lemma find?_cons_eq (p : String × Rat → Bool) (x : String × Rat) (s : List (String × Rat)) :
    (x :: s).find? p = (if p x then some x else s.find? p) := by
  cases hpx : p x <;> simp [List.find?_cons, hpx]

lemma find?_orderedInsert_none (p : String × Rat → Bool) (x : String × Rat) :
    ∀ s : List (String × Rat), List.Sorted qGE s → s.find? p = none →
      (List.orderedInsert qGE x s).find? p = (if p x then some x else none) := by
  intro s
  induction s with
  | nil => intro _ _; simp [List.orderedInsert, find?_cons_eq]
  | cons y ys ih =>
      intro hs hf
      obtain ⟨hy, hys⟩ := List.sorted_cons.mp hs
      rw [find?_cons_eq] at hf
      have hpy : p y = false := by
        by_contra hcon
        rw [if_pos (by simpa using hcon)] at hf
        exact Option.some_ne_none y hf
      rw [if_neg (by simp [hpy])] at hf
      by_cases hxy : qGE x y
      · rw [List.orderedInsert, if_pos hxy, find?_cons_eq, find?_cons_eq, hpy]
        simp [hf]
      · rw [List.orderedInsert, if_neg hxy, find?_cons_eq, hpy]
        simpa using ih hys hf

lemma find?_orderedInsert_some (p : String × Rat → Bool) (x : String × Rat) :
    ∀ (s : List (String × Rat)) (b : String × Rat),
      List.Sorted qGE s → s.find? p = some b →
      (List.orderedInsert qGE x s).find? p =
        (if p x && decide (b.2 ≤ x.2) then some x else some b) := by
  intro s
  induction s with
  | nil => intro b _ hf; simp at hf
  | cons y ys ih =>
      intro b hs hf
      obtain ⟨hy, hys⟩ := List.sorted_cons.mp hs
      have hb : b ∈ y :: ys := List.mem_of_find?_eq_some hf
      have hby : b.2 ≤ y.2 := by
        rcases List.mem_cons.mp hb with h | h
        · exact le_of_eq (congrArg Prod.snd h)
        · exact hy b h
      by_cases hxy : qGE x y
      · have hbx : b.2 ≤ x.2 := le_trans hby hxy
        rw [List.orderedInsert, if_pos hxy, find?_cons_eq, hf]
        cases hpx : p x <;> simp [hpx, hbx]
      · have hxq : ¬ (y.2 ≤ x.2) := hxy
        rw [List.orderedInsert, if_neg hxy, find?_cons_eq]
        rw [find?_cons_eq] at hf
        cases hpy : p y with
        | true =>
            rw [if_pos (by simp [hpy])] at hf
            have hbeq : b = y := (Option.some_inj.mp hf).symm
            subst hbeq
            rw [if_pos (by simp [hpy])]
            simp [hxq]
        | false =>
            rw [if_neg (by simp [hpy])] at hf
            rw [if_neg (by simp [hpy])]
            exact ih b hys hf

lemma find?_insertionSort_qGE (p : String × Rat → Bool) :
    ∀ l : List (String × Rat),
      ((l.insertionSort qGE).find? p = none → ∀ y ∈ l, p y = false) ∧
      (∀ b, (l.insertionSort qGE).find? p = some b →
        p b = true ∧ (∀ y ∈ l, p y = true → y.2 ≤ b.2) ∧
        ∃ l₁ l₂, l = l₁ ++ b :: l₂ ∧ ∀ y ∈ l₁, p y = true → y.2 < b.2) := by
  intro l
  induction l with
  | nil =>
      exact ⟨fun _ y hy => absurd hy (List.not_mem_nil y), fun b hb => by simp at hb⟩
  | cons x l ih =>
      have hsorted : List.Sorted qGE (l.insertionSort qGE) := List.sorted_insertionSort qGE l
      have hunfold : List.insertionSort qGE (x :: l) =
          List.orderedInsert qGE x (l.insertionSort qGE) := rfl
      cases hf : (l.insertionSort qGE).find? p with
      | none =>
          have hnone := ih.1 hf
          have hrw : (List.insertionSort qGE (x :: l)).find? p =
              (if p x then some x else none) := by
            rw [hunfold]; exact find?_orderedInsert_none p x _ hsorted hf
          cases hpx : p x with
          | false =>
              rw [if_neg (by simp [hpx])] at hrw
              refine ⟨fun _ y hy => ?_, fun b hb => absurd (hrw ▸ hb) (by simp)⟩
              rcases List.mem_cons.mp hy with h | h
              · exact h ▸ hpx
              · exact hnone y h
          | true =>
              rw [if_pos (by simp [hpx])] at hrw
              refine ⟨fun hcon => absurd (hrw ▸ hcon) (by simp), fun b hb => ?_⟩
              have hbx : b = x := Option.some_inj.mp (hrw ▸ hb).symm
              subst hbx
              refine ⟨hpx, fun y hy hpy => ?_, [], l, rfl,
                fun y hy => absurd hy (List.not_mem_nil y)⟩
              rcases List.mem_cons.mp hy with h | h
              · exact le_of_eq (congrArg Prod.snd h)
              · exact absurd hpy (by rw [hnone y h]; simp)
      | some b =>
          obtain ⟨hpb, hble, l₁, l₂, hdec, hstrict⟩ := ih.2 b hf
          have hrw : (List.insertionSort qGE (x :: l)).find? p =
              (if p x && decide (b.2 ≤ x.2) then some x else some b) := by
            rw [hunfold]; exact find?_orderedInsert_some p x _ b hsorted hf
          cases hpx : p x with
          | false =>
              rw [if_neg (by simp [hpx])] at hrw
              refine ⟨fun hcon => absurd (hrw ▸ hcon) (by simp), fun b' hb' => ?_⟩
              have hbb : b' = b := Option.some_inj.mp (hrw ▸ hb').symm
              subst hbb
              refine ⟨hpb, fun y hy hpy => ?_, x :: l₁, l₂,
                by rw [hdec, List.cons_append], fun y hy hpy => ?_⟩
              · rcases List.mem_cons.mp hy with h | h
                · exact absurd hpy (by rw [h, hpx]; simp)
                · exact hble y h hpy
              · rcases List.mem_cons.mp hy with h | h
                · exact absurd hpy (by rw [h, hpx]; simp)
                · exact hstrict y h hpy
          | true =>
              by_cases hbx : b.2 ≤ x.2
              · rw [if_pos (by simp [hpx, hbx])] at hrw
                refine ⟨fun hcon => absurd (hrw ▸ hcon) (by simp), fun b' hb' => ?_⟩
                have hbb : b' = x := Option.some_inj.mp (hrw ▸ hb').symm
                subst hbb
                refine ⟨hpx, fun y hy hpy => ?_, [], l, rfl,
                  fun y hy => absurd hy (List.not_mem_nil y)⟩
                rcases List.mem_cons.mp hy with h | h
                · exact le_of_eq (congrArg Prod.snd h)
                · exact le_trans (hble y h hpy) hbx
              · rw [if_neg (by simp [hpx, hbx])] at hrw
                refine ⟨fun hcon => absurd (hrw ▸ hcon) (by simp), fun b' hb' => ?_⟩
                have hbb : b' = b := Option.some_inj.mp (hrw ▸ hb').symm
                rw [hbb]
                have hxlt : x.2 < b.2 := lt_of_not_le hbx
                refine ⟨hpb, fun y hy hpy => ?_, x :: l₁, l₂,
                  by rw [hdec, List.cons_append], fun y hy hpy => ?_⟩
                · rcases List.mem_cons.mp hy with h | h
                  · exact h ▸ le_of_lt hxlt
                  · exact hble y h hpy
                · rcases List.mem_cons.mp hy with h | h
                  · exact h ▸ hxlt
                  · exact hstrict y h hpy

lemma find?_true_eq_head? (l : List (String × Rat)) :
    l.find? (fun _ => true) = l.head? := by
  cases l <;> simp [List.find?]

lemma headD_insertionSort_qGE (l : List (String × Rat)) (hl : l ≠ []) (d : String × Rat) :
    (∀ y ∈ l, y.2 ≤ ((l.insertionSort qGE).headD d).2) ∧
      ∃ l₁ l₂, l = l₁ ++ ((l.insertionSort qGE).headD d) :: l₂ ∧
        ∀ y ∈ l₁, y.2 < ((l.insertionSort qGE).headD d).2 := by
  have hne : l.insertionSort qGE ≠ [] := by
    intro hcon
    have := List.length_insertionSort qGE l
    rw [hcon] at this
    exact hl (List.eq_nil_of_length_eq_zero this.symm)
  obtain ⟨a, t, hat⟩ := List.exists_cons_of_ne_nil hne
  have hfind : (l.insertionSort qGE).find? (fun _ => true) = some a := by
    rw [find?_true_eq_head?, hat]; rfl
  have hhead : (l.insertionSort qGE).headD d = a := by rw [hat]; rfl
  obtain ⟨_, hble, l₁, l₂, hdec, hstrict⟩ := (find?_insertionSort_qGE (fun _ => true) l).2 a hfind
  rw [hhead]
  exact ⟨fun y hy => hble y hy rfl, l₁, l₂, hdec, fun y hy => hstrict y hy rfl⟩

/-! ## Claims C6, C7, C2: content negotiation -/

/-- C6: format negotiation parses Accept as comma-separated media-type
entries with q defaulting to 1.0 when absent, selects the entry with the
highest q with ties resolved to the earliest occurrence (head of the stable
descending sort), and maps the winning media type to xml when it contains
"xml" case-insensitively, else to json (also the default); in particular
`application/xml;q=0.9, application/json;q=1.0` selects JSON. -/
theorem c6_accept_format_negotiation :
    (∀ l : List (String × Rat), l ≠ [] → ∀ d : String × Rat,
      (∀ y ∈ l, y.2 ≤ ((l.insertionSort qGE).headD d).2) ∧
        ∃ l₁ l₂, l = l₁ ++ ((l.insertionSort qGE).headD d) :: l₂ ∧
          ∀ y ∈ l₁, y.2 < ((l.insertionSort qGE).headD d).2) ∧
    (∀ part : String, (pySplitOn (pyStrip part) ';').tail = [] →
      (parseAcceptEntry part).2 = 1) ∧
    (∀ a : String, a ≠ "" →
      parse_accept_header (some a) =
        (mkVersion (bestMedia a).1, mkFormat (bestMedia a).1)) ∧
    (∀ m : String,
      (strContains (pyLower m) "xml" = true → mkFormat m = "application/xml") ∧
      (strContains (pyLower m) "xml" = false → mkFormat m = "application/json")) ∧
    parse_accept_header (some "application/xml;q=0.9, application/json;q=1.0") =
      ("default", "application/json") := by
  refine ⟨fun l hl d => headD_insertionSort_qGE l hl d, ?_, ?_, ?_, by decide⟩
  · intro part htail
    show ((pySplitOn (pyStrip part) ';').tail.foldl acceptQStep 1) = 1
    rw [htail]
    rfl
  · intro a ha
    simp [parse_accept_header, ha]
  · intro m
    constructor <;> intro h <;> simp [mkFormat, h]

theorem c6_accept_format_negotiation_witness :
    (mkRat 9 10 : Rat) ≤
      (([("application/xml", mkRat 9 10), ("application/json", (1 : Rat))].insertionSort
        qGE).headD ("", 1)).2 :=
  (c6_accept_format_negotiation.1 _ (by decide) ("", 1)).1
    ("application/xml", mkRat 9 10) (by decide)

/-- C7: encoding negotiation returns, among the Accept-Encoding entries whose
lowercased algorithm is br, gzip or identity, the one with the highest q
(ties broken by header order); absent/empty headers and headers with no
recognized algorithm yield identity; `br;q=0.5, gzip;q=0.8` selects gzip. -/
theorem c7_choose_encoding_selection :
    choose_encoding "" = "identity" ∧
    (∀ h : String, h ≠ "" →
      ((∀ y ∈ encodingItems h, recognizedAlg y.1 = false) →
        choose_encoding h = "identity") ∧
      (∀ b : String × Rat,
        ((encodingItems h).insertionSort qGE).find? (fun e => recognizedAlg e.1) = some b →
          choose_encoding h = b.1 ∧ recognizedAlg b.1 = true ∧
          (∀ y ∈ encodingItems h, recognizedAlg y.1 = true → y.2 ≤ b.2) ∧
          ∃ l₁ l₂, encodingItems h = l₁ ++ b :: l₂ ∧
            ∀ y ∈ l₁, recognizedAlg y.1 = true → y.2 < b.2)) ∧
    choose_encoding "br;q=0.5, gzip;q=0.8" = "gzip" := by
  refine ⟨by decide, ?_, by decide⟩
  intro h hh
  constructor
  · intro hall
    unfold choose_encoding
    rw [if_neg hh]
    cases hfind : ((encodingItems h).insertionSort qGE).find? (fun e => recognizedAlg e.1) with
    | none => rfl
    | some b =>
        have hpb := List.find?_some hfind
        have hmem := List.mem_of_find?_eq_some hfind
        rw [List.mem_insertionSort] at hmem
        exact absurd hpb (by rw [hall b hmem]; simp)
  · intro b hfind
    obtain ⟨hpb, hble, l₁, l₂, hdec, hstrict⟩ :=
      (find?_insertionSort_qGE (fun e => recognizedAlg e.1) (encodingItems h)).2 b hfind
    refine ⟨?_, by simpa using hpb, fun y hy hr => hble y hy (by simpa using hr),
      l₁, l₂, hdec, fun y hy hr => hstrict y hy (by simpa using hr)⟩
    unfold choose_encoding
    rw [if_neg hh, hfind]

theorem c7_choose_encoding_selection_witness :
    choose_encoding "br;q=0.5, gzip;q=0.8" = "gzip" ∧ recognizedAlg "gzip" = true := by
  have h := (c7_choose_encoding_selection.2.1 "br;q=0.5, gzip;q=0.8" (by decide)).2
    ("gzip", mkRat 4 5) (by decide)
  exact ⟨h.1, h.2.1⟩

/-- C2 counterexample: a malformed q in an Accept-Encoding entry is NOT
treated as q=1.0: `gzip;q=abc` parses with q=0.0, and consequently
`gzip;q=abc, br` negotiates br — whereas with q=1.0 the stable descending
sort would keep the earlier gzip entry first (third conjunct), so gzip
would have been chosen. -/
theorem c2_counterexample_encoding_q :
    parseEncodingEntry "gzip;q=abc" = ("gzip", 0) ∧
    choose_encoding "gzip;q=abc, br" = "br" ∧
    [("gzip", (1 : Rat)), ("br", (1 : Rat))].insertionSort qGE =
      [("gzip", 1), ("br", 1)] := by
  exact ⟨by decide, by decide, by decide⟩

/-- C2 amended: on a `q=` parameter whose value does not parse as a float,
`parse_accept_header` silently keeps the previous q value (hence the 1.0
default when it is the entry's only q parameter), while `choose_encoding`
sets q to 0.0. -/
theorem c2_malformed_q_policy (q0 : Rat) (p : String)
    (hq : pyStartsWith (pyStrip p) "q=" = true)
    (hbad : pyFloat? (pyDrop (pyStrip p) 2) = none) :
    acceptQStep q0 p = q0 ∧ encodingQStep q0 p = 0 := by
  constructor <;> simp [acceptQStep, encodingQStep, hq, hbad]

theorem c2_malformed_q_policy_witness :
    acceptQStep (mkRat 1 2) "q=abc" = mkRat 1 2 ∧ encodingQStep (mkRat 1 2) "q=abc" = 0 :=
  c2_malformed_q_policy (mkRat 1 2) "q=abc" (by decide) (by decide)

/-! ## Claim C8: remove_accents -/

lemma filter_nfd_ascii :
    ∀ cs : List Char, (∀ c ∈ cs, c.toNat < 128) →
      ((cs.map nfdChar).flatten).filter (fun c => !charIsMn c) = cs := by
  intro cs
  induction cs with
  | nil => intro _; rfl
  | cons c t ih =>
      intro h
      have hc : c.toNat < 128 := h c (List.mem_cons_self c t)
      have hnfd : nfdChar c = [c] := by rw [nfdChar, if_pos hc]
      have hmn : charIsMn c = false := by
        have : ¬ (0x300 ≤ c.toNat) := by omega
        simp [charIsMn, this]
      simp only [List.map_cons, List.flatten_cons, hnfd, List.filter_append,
        List.filter_cons, hmn, Bool.not_false, if_true]
      rw [ih (fun x hx => h x (List.mem_cons_of_mem c hx))]
      rfl

/-- C8 counterexample: `remove_accents(None)` raises `TypeError`
(`unicodedata.normalize('NFD', None)` rejects a non-str argument); the
`None` input is not passed through and produces no output. -/
theorem c8_counterexample_none_raises :
    removeAccentsPy none = .error PyExc.typeError := rfl

/-- C8 amended: for `None` input `remove_accents` raises `TypeError`; on
every string input it returns normally (never raises), maps the empty string
to the empty string, is the identity on ASCII strings, and removes
diacritics so that the normalizations of "café" and "cafe" agree. -/
theorem c8_remove_accents_on_strings :
    (∀ s : String, removeAccentsPy (some s) = .ok (remove_accents s)) ∧
    remove_accents "" = "" ∧
    (∀ s : String, (∀ c ∈ s.data, c.toNat < 128) → remove_accents s = s) ∧
    remove_accents "café" = remove_accents "cafe" := by
  refine ⟨fun s => rfl, rfl, ?_, by decide⟩
  intro s h
  show (⟨((s.data.map nfdChar).flatten).filter (fun c => !charIsMn c)⟩ : String) = s
  rw [filter_nfd_ascii s.data h]

theorem c8_remove_accents_on_strings_witness :
    remove_accents "abc" = "abc" :=
  c8_remove_accents_on_strings.2.2.1 "abc" (by decide)

/-! ## src/utils.py: UUID validation; by-ID endpoints (claim C3) -/

/-- Characters stripped by `hex.strip(chr(123) ++ chr(125))` in
`uuid.UUID.__init__` (the surrounding braces). -/
def isBraceChar (c : Char) : Bool := c.toNat = 123 || c.toNat = 125

/-- Python `str.strip(braces)`. -/
def stripBraces (s : String) : String :=
  ⟨(((s.data.dropWhile isBraceChar).reverse).dropWhile isBraceChar).reverse⟩

/-- Hexadecimal digit admitted by `int(hex, 16)`. -/
def isHexChar (c : Char) : Bool :=
  c.isDigit || ('a' ≤ c && c ≤ 'f') || ('A' ≤ c && c ≤ 'F')

/-- Remove every occurrence of `pat` (Python `s.replace(pat, '')` for a
nonempty pattern), fuelled structurally by the input length. -/
def removeSubAux (pat : List Char) : Nat → List Char → List Char
  | 0, l => l
  | _ + 1, [] => []
  | fuel + 1, c :: t =>
      if pat.isPrefixOf (c :: t) then removeSubAux pat fuel (List.drop pat.length (c :: t))
      else c :: removeSubAux pat fuel t

/-- Python `s.replace(pat, '')` for a nonempty `pat`. -/
def pyRemoveAll (s pat : String) : String :=
  ⟨removeSubAux pat.data (s.data.length + 1) s.data⟩

/-- Admission test of `uuid.UUID(val)` on a string: drop `urn:` and `uuid:`,
strip surrounding braces, delete hyphens, and require exactly 32 hex digits
(the sign/underscore fringe that `int(·, 16)` would additionally admit
inside a 32-character string is not modelled; no claim exercises it). -/
def pyUUIDok (val : String) : Bool :=
  let h1 := pyRemoveAll (pyRemoveAll val "urn:") "uuid:"
  let h2 := pyRemoveAll (stripBraces h1) "-"
  h2.data.length == 32 && h2.data.all isHexChar

/-- The `HTTPException(status_code, detail)` payload. -/
structure HTTPErr where
  status_code : Nat
  detail : String
deriving DecidableEq

/-- src/utils.py `validate_uuid`: raises 400 on a malformed identifier. -/
def validate_uuid (param_value param_name : String) : Except HTTPErr Unit :=
  if pyUUIDok param_value then .ok ()
  else .error ⟨400, "PARAMS_NOT_VALID: " ++ param_name ++ " format invalid"⟩

/-- src/utils.py `is_valid_uuid`. -/
def is_valid_uuid (val : String) : Bool := pyUUIDok val

/-- The columns of models.User read by the embedded pipeline (dateOfBirth,
phone, picture and location are never consulted by the modelled logic). -/
structure UserRec where
  id : String
  firstName : String
  lastName : String
  email : String
  title : String
  dateOfBirth : Int
  registerDate : Int
deriving DecidableEq

/-- The columns of models.Post read by the embedded pipeline. -/
structure PostRec where
  id : String
  text : String
  owner_id : String
  publishDate : Int
  image : Option String
  likes : Int
  tags : Option String
deriving DecidableEq

/-- The columns of models.Comment read by the embedded pipeline. -/
structure CommentRec where
  id : String
  message : String
  owner_id : String
  post_id : String
  publishDate : Int
deriving DecidableEq

/-- src/routers/users.py `get_user` (GET /users/:id), up to resource lookup:
a malformed UUID raises 422; a missing user raises 404. -/
def get_user (db : List UserRec) (user_id : String) : Except HTTPErr UserRec :=
  if !(is_valid_uuid user_id) then
    .error ⟨422, "PARAMS_NOT_VALID: user_id invalid UUID"⟩
  else
    match db.find? (fun u => u.id == user_id) with
    | some u => .ok u
    | none => .error ⟨404, "RESOURCE_NOT_FOUND: user not found"⟩

/-- src/routers/posts.py `get_post` (GET /posts/:id): `validate_uuid` raises
400 on a malformed UUID; a missing post raises 404. -/
def get_post (db : List PostRec) (post_id : String) : Except HTTPErr PostRec :=
  match validate_uuid post_id "post_id" with
  | .error e => .error e
  | .ok _ =>
      match db.find? (fun p => p.id == post_id) with
      | some p => .ok p
      | none => .error ⟨404, "RESOURCE_NOT_FOUND: post not found"⟩

/-- src/routers/comments.py `get_comment` (GET /comments/:id). -/
def get_comment (db : List CommentRec) (comment_id : String) : Except HTTPErr CommentRec :=
  match validate_uuid comment_id "comment_id" with
  | .error e => .error e
  | .ok _ =>
      match db.find? (fun c => c.id == comment_id) with
      | some c => .ok c
      | none => .error ⟨404, "RESOURCE_NOT_FOUND: comment not found"⟩

example : is_valid_uuid "123e4567-e89b-12d3-a456-426614174000" = true := by decide
example : is_valid_uuid "abc" = false := by decide

/-- C3 counterexample: the user by-ID endpoint answers a non-UUID path
identifier with status 422, not the claimed 400. -/
theorem c3_counterexample_user_422 :
    get_user [] "abc" = .error ⟨422, "PARAMS_NOT_VALID: user_id invalid UUID"⟩ ∧
    (422 : Nat) ≠ 400 := by
  exact ⟨rfl, by decide⟩

/-- C3 amended: a non-UUID path identifier yields status 400 on the post and
comment by-ID endpoints (via `validate_uuid`), but status 422 on the user
by-ID endpoint, which raises its own `HTTPException`. -/
theorem c3_bad_uuid_statuses (db_u : List UserRec) (db_p : List PostRec)
    (db_c : List CommentRec) (iid : String) (hbad : is_valid_uuid iid = false) :
    get_user db_u iid = .error ⟨422, "PARAMS_NOT_VALID: user_id invalid UUID"⟩ ∧
    get_post db_p iid = .error ⟨400, "PARAMS_NOT_VALID: post_id format invalid"⟩ ∧
    get_comment db_c iid = .error ⟨400, "PARAMS_NOT_VALID: comment_id format invalid"⟩ := by
  have hbad' : pyUUIDok iid = false := hbad
  refine ⟨?_, ?_, ?_⟩
  · simp [get_user, hbad]
  · simp [get_post, validate_uuid, hbad']
  · simp [get_comment, validate_uuid, hbad']

theorem c3_bad_uuid_statuses_witness :
    get_post [] "zzz" = .error ⟨400, "PARAMS_NOT_VALID: post_id format invalid"⟩ :=
  (c3_bad_uuid_statuses [] [] [] "zzz" (by decide)).2.1

/-! ## Pagination: Python list slicing and link computation (claims C9, C4, C5) -/

/-- Clamp one Python slice index: a negative index counts from the end of the
list (clamped below at 0 by `toNat`); a nonnegative index is clamped above at
the length. -/
def pySliceIdx (len : Nat) (i : Int) : Nat :=
  if i < 0 then ((len : Int) + i).toNat else min i.toNat len

/-- Python `l[start:stop]` (step 1). -/
def pySlice {α : Type} (l : List α) (start stop : Int) : List α :=
  let s := pySliceIdx l.length start
  let e := pySliceIdx l.length stop
  (l.drop s).take (e - s)

/-- The page slice shared by every list endpoint:
`start = (page - 1) * limit; end = start + limit; l[start:end]`. -/
def paginate {α : Type} (l : List α) (page limit : Int) : List α :=
  pySlice l ((page - 1) * limit) ((page - 1) * limit + limit)

/-- The pages targeted by the pagination links of a list response. -/
structure PageLinks where
  first : Int
  last : Int
  prev : Option Int
  next : Option Int
deriving DecidableEq

/-- src/routers/posts.py line 109 (and comments.py line 104):
`last_page = max((total - 1) // limit + 1, 1)` (Python floor division). -/
def lastPageFloor (total : Nat) (limit : Int) : Int :=
  max (Int.fdiv ((total : Int) - 1) limit + 1) 1

/-- Link pages computed by get_posts and get_comments: first and last always,
prev iff `page > 1`, next iff `page < last_page`. -/
def postsLinks (total : Nat) (page limit : Int) : PageLinks :=
  let lp := lastPageFloor total limit
  { first := 1
    last := lp
    prev := if page > 1 then some (page - 1) else none
    next := if page < lp then some (page + 1) else none }

/-- Link pages computed by get_users (src/routers/users.py lines 115-122):
the last page is `(total - 1) // limit + 1` without the max-with-1 guard,
and next is emitted iff `page * limit < total`. -/
def usersLinks (total : Nat) (page limit : Int) : PageLinks :=
  { first := 1
    last := Int.fdiv ((total : Int) - 1) limit + 1
    prev := if page > 1 then some (page - 1) else none
    next := if page * limit < (total : Int) then some (page + 1) else none }

/-- `last_page` as the specification words it: `max(ceil(total/limit), 1)`,
with the ceiling written as `(total + limit - 1) / limit` (exact for
`limit ≥ 1`). -/
def specLastPage (total : Nat) (limit : Int) : Int :=
  max (((total : Int) + limit - 1) / limit) 1

lemma lastPageFloor_eq_specLastPage (total : Nat) (limit : Int) (hl : 1 ≤ limit) :
    lastPageFloor total limit = specLastPage total limit := by
  have hl0 : (0 : Int) ≤ limit := by linarith
  have hlpos : (0 : Int) < limit := by linarith
  unfold lastPageFloor specLastPage
  rw [Int.fdiv_eq_ediv _ hl0]
  rcases Nat.eq_zero_or_pos total with h0 | hpos
  · subst h0
    have h1 : ((0 : Nat) : Int) - 1 = -1 := by norm_num
    have h2 : ((0 : Nat) : Int) + limit - 1 = (limit - 1) + 0 * limit := by ring
    have h3 : (-1 : Int) = (limit - 1) + (-1) * limit := by ring
    have hsmall : (limit - 1) / limit = 0 :=
      Int.ediv_eq_zero_of_lt (by linarith) (by linarith)
    rw [h1, h2, h3, Int.add_mul_ediv_right _ _ (by linarith : limit ≠ 0),
      Int.add_mul_ediv_right _ _ (by linarith : limit ≠ 0), hsmall]
    norm_num
  · have ht : (1 : Int) ≤ (total : Int) := by exact_mod_cast hpos
    have h2 : ((total : Int) + limit - 1) = ((total : Int) - 1) + 1 * limit := by ring
    rw [h2, Int.add_mul_ediv_right _ _ (by linarith : limit ≠ 0)]

lemma users_next_iff (total : Nat) (page limit : Int) (hp : 1 ≤ page) (hl : 1 ≤ limit) :
    (page * limit < (total : Int)) ↔ page < specLastPage total limit := by
  have hlpos : (0 : Int) < limit := by linarith
  rcases Nat.eq_zero_or_pos total with h0 | hpos
  · subst h0
    constructor
    · intro h
      exact absurd h (by push_cast; nlinarith)
    · intro h
      have h1 : specLastPage 0 limit = 1 := by
        rw [← lastPageFloor_eq_specLastPage 0 limit hl]
        unfold lastPageFloor
        have : Int.fdiv (((0 : Nat) : Int) - 1) limit + 1 ≤ 1 := by
          have := Int.fdiv_eq_ediv (((0 : Nat) : Int) - 1) (by linarith : (0 : Int) ≤ limit)
          rw [this]
          have hneg : (((0 : Nat) : Int) - 1) / limit ≤ 0 :=
            le_of_lt (Int.ediv_neg' (by norm_num) hlpos)
          linarith
        omega
      rw [h1] at h
      omega
  · have ht : (1 : Int) ≤ (total : Int) := by exact_mod_cast hpos
    have hspec : specLastPage total limit = ((total : Int) - 1) / limit + 1 := by
      rw [← lastPageFloor_eq_specLastPage total limit hl]
      unfold lastPageFloor
      rw [Int.fdiv_eq_ediv _ (by linarith : (0 : Int) ≤ limit)]
      have hge : 1 ≤ ((total : Int) - 1) / limit + 1 := by
        have : (0 : Int) ≤ ((total : Int) - 1) / limit :=
          Int.ediv_nonneg (by linarith) (by linarith)
        linarith
      exact max_eq_left hge
    rw [hspec]
    constructor
    · intro h
      have h1 : page * limit ≤ (total : Int) - 1 := by linarith
      have h2 : page ≤ ((total : Int) - 1) / limit := by
        rw [Int.le_ediv_iff_mul_le hlpos]
        exact h1
      linarith
    · intro h
      have h1 : page ≤ ((total : Int) - 1) / limit := by linarith
      have h2 : page * limit ≤ (total : Int) - 1 := by
        have := (Int.le_ediv_iff_mul_le hlpos).mp h1
        exact this
      linarith

lemma paginate_length_le {α : Type} (l : List α) (page limit : Int)
    (hp : 1 ≤ page) (hl : 1 ≤ limit) :
    (paginate l page limit).length ≤ limit.toNat := by
  unfold paginate pySlice
  generalize hstart : (page - 1) * limit = s
  have hs : 0 ≤ s := hstart ▸ mul_nonneg (by linarith) (by linarith)
  have he : 0 ≤ s + limit := by linarith
  unfold pySliceIdx
  rw [if_neg (not_lt.mpr hs), if_neg (not_lt.mpr he)]
  simp only [List.length_take, List.length_drop]
  omega

lemma paginate_empty_of_start_ge {α : Type} (l : List α) (page limit : Int)
    (hp : 1 ≤ page) (hl : 1 ≤ limit) (h : (l.length : Int) ≤ (page - 1) * limit) :
    paginate l page limit = [] := by
  unfold paginate pySlice
  generalize hstart : (page - 1) * limit = s at h
  have hs : 0 ≤ s := hstart ▸ mul_nonneg (by linarith) (by linarith)
  have he : 0 ≤ s + limit := by linarith
  unfold pySliceIdx
  rw [if_neg (not_lt.mpr hs), if_neg (not_lt.mpr he)]
  dsimp only
  have hdrop : l.drop (min s.toNat l.length) = l.drop l.length := by
    congr 1
    omega
  rw [hdrop, List.drop_length, List.take_nil]

lemma start_ge_of_past_lastPage (total : Nat) (page limit : Int)
    (hl : 1 ≤ limit) (h : specLastPage total limit < page) :
    (total : Int) ≤ (page - 1) * limit := by
  have hlpos : (0 : Int) < limit := by linarith
  have hq : ((total : Int) + limit - 1) / limit * limit + limit - 1 ≥ (total : Int) + limit - 1 := by
    have hmod1 : 0 ≤ ((total : Int) + limit - 1) % limit := Int.emod_nonneg _ (by linarith)
    have hmod2 : ((total : Int) + limit - 1) % limit < limit := Int.emod_lt_of_pos _ hlpos
    have heq : limit * (((total : Int) + limit - 1) / limit) + ((total : Int) + limit - 1) % limit
        = (total : Int) + limit - 1 := Int.ediv_add_emod _ _
    nlinarith [heq]
  have hple : ((total : Int) + limit - 1) / limit ≤ page - 1 := by
    have : ((total : Int) + limit - 1) / limit ≤ specLastPage total limit := le_max_left _ _
    omega
  have := mul_le_mul_of_nonneg_right hple (by linarith : (0 : Int) ≤ limit)
  nlinarith

/-- C9: the list endpoints do not validate `page ≥ 1`: `page = 0` always
yields the empty slice (for any collection and any `limit ≥ 1`); a negative
`page` makes the slice start `(page-1)*limit` negative so Python negative
indexing applies, and in particular `page = -1, limit = 10` over a 25-record
collection returns the 10 records at 0-based indices 5..14 (positions 6-15),
a non-empty interior portion rather than an empty slice or an error. -/
theorem c9_page_not_validated :
    (∀ (α : Type) (l : List α) (limit : Int), 1 ≤ limit → paginate l 0 limit = []) ∧
    (∀ page limit : Int, page < 0 → 1 ≤ limit → (page - 1) * limit < 0) ∧
    paginate (List.range 25) (-1) 10 = [5, 6, 7, 8, 9, 10, 11, 12, 13, 14] ∧
    (paginate (List.range 25) (-1) 10).length = 10 := by
  refine ⟨?_, ?_, by decide, by decide⟩
  · intro α l limit hl
    unfold paginate pySlice
    dsimp only
    have h2 : ((0 : Int) - 1) * limit + limit = 0 := by ring
    rw [h2]
    have hidx0 : pySliceIdx l.length 0 = 0 := by
      unfold pySliceIdx
      rw [if_neg (by omega)]
      omega
    rw [hidx0]
    simp
  · intro page limit hpage hl
    have h1 : page - 1 < 0 := by linarith
    exact mul_neg_of_neg_of_pos h1 (by linarith)

theorem c9_page_not_validated_witness :
    paginate ([0, 1, 2] : List Int) 0 7 = [] :=
  c9_page_not_validated.1 Int [0, 1, 2] 7 (by decide)

/-- C4 counterexample: on get_users with an empty collection the `last` link
targets page `(total - 1) // limit + 1 = 0`, not
`last_page = max(ceil(total/limit), 1) = 1`; moreover even get_posts can emit
a `prev` link beyond `last_page` when the requested page is out of range
(page 3 of an empty collection yields prev = 2 > 1). -/
theorem c4_counterexample_links :
    (usersLinks 0 1 10).last = 0 ∧ specLastPage 0 10 = 1 ∧
    (postsLinks 0 3 10).prev = some 2 := by
  refine ⟨by decide, by decide, by decide⟩

/-- C4 amended: for get_posts (and get_comments) the link set always contains
first (page 1) and last (targeting exactly `last_page = max(ceil(total/limit),
1)`), contains prev iff `page > 1` (targeting `page - 1`) and next iff
`page < last_page` (targeting `page + 1`); hence first, last and next never
target a page beyond `last_page`, though prev can when the requested page is
itself beyond `last_page + 1`.  For get_users the last link instead targets
`(total-1) // limit + 1`, which coincides with `last_page` when `total ≥ 1`
but is page 0 when `total = 0`; its next condition `page * limit < total` is
equivalent to `page < last_page`. -/
theorem c4_pagination_links (total : Nat) (page limit : Int)
    (hp : 1 ≤ page) (hl : 1 ≤ limit) :
    (postsLinks total page limit).first = 1 ∧
    (postsLinks total page limit).last = specLastPage total limit ∧
    ((postsLinks total page limit).prev = if page > 1 then some (page - 1) else none) ∧
    ((postsLinks total page limit).next =
      if page < specLastPage total limit then some (page + 1) else none) ∧
    1 ≤ specLastPage total limit ∧
    (∀ q : Int, (postsLinks total page limit).next = some q →
      q ≤ specLastPage total limit) ∧
    (usersLinks total page limit).first = 1 ∧
    (1 ≤ total → (usersLinks total page limit).last = specLastPage total limit) ∧
    (total = 0 → (usersLinks total page limit).last = 0) ∧
    ((usersLinks total page limit).next =
      if page < specLastPage total limit then some (page + 1) else none) := by
  have hfloor := lastPageFloor_eq_specLastPage total limit hl
  have hone : 1 ≤ specLastPage total limit := le_max_right _ _
  refine ⟨rfl, by simp [postsLinks, hfloor], rfl, by simp [postsLinks, hfloor], hone,
    ?_, rfl, ?_, ?_, ?_⟩
  · intro q hq
    simp only [postsLinks, hfloor] at hq
    by_cases hlt : page < specLastPage total limit
    · rw [if_pos hlt] at hq
      have : q = page + 1 := by
        simpa using hq.symm
      omega
    · rw [if_neg hlt] at hq
      exact absurd hq (by simp)
  · intro ht
    have : (usersLinks total page limit).last = lastPageFloor total limit := by
      unfold usersLinks lastPageFloor
      have hge : 1 ≤ Int.fdiv ((total : Int) - 1) limit + 1 := by
        rw [Int.fdiv_eq_ediv _ (by linarith : (0 : Int) ≤ limit)]
        have ht' : (1 : Int) ≤ (total : Int) := by exact_mod_cast ht
        have : (0 : Int) ≤ ((total : Int) - 1) / limit :=
          Int.ediv_nonneg (by linarith) (by linarith)
        omega
      simp [max_eq_left hge]
    rw [this, hfloor]
  · intro ht
    subst ht
    show Int.fdiv (((0 : Nat) : Int) - 1) limit + 1 = 0
    rw [Int.fdiv_eq_ediv _ (by linarith : (0 : Int) ≤ limit)]
    have h3 : (((0 : Nat) : Int) - 1) = (limit - 1) + (-1) * limit := by push_cast; ring
    have hsmall : (limit - 1) / limit = 0 :=
      Int.ediv_eq_zero_of_lt (by linarith) (by linarith)
    rw [h3, Int.add_mul_ediv_right _ _ (by linarith : limit ≠ 0), hsmall]
    norm_num
  · show (if page * limit < (total : Int) then some (page + 1) else none) =
      (if page < specLastPage total limit then some (page + 1) else none)
    by_cases hcond : page * limit < (total : Int)
    · rw [if_pos hcond, if_pos ((users_next_iff total page limit hp hl).mp hcond)]
    · rw [if_neg hcond,
        if_neg (fun hc => hcond ((users_next_iff total page limit hp hl).mpr hc))]

theorem c4_pagination_links_witness :
    (postsLinks 25 2 10).last = specLastPage 25 10 ∧ (usersLinks 25 2 10).last = specLastPage 25 10 := by
  have h := c4_pagination_links 25 2 10 (by decide) (by decide)
  exact ⟨h.2.1, h.2.2.2.2.2.2.2.1 (by decide)⟩

/-! ## pyMax properties -/

lemma le_foldl_max : ∀ (l : List Int) (a : Int), a ≤ l.foldl max a
  | [], a => le_refl a
  | x :: t, a => le_trans (le_max_left a x) (le_foldl_max t (max a x))

lemma mem_le_foldl_max : ∀ (l : List Int) (a b : Int), b ∈ l → b ≤ l.foldl max a
  | [], _, b, hb => absurd hb (List.not_mem_nil b)
  | x :: t, a, b, hb => by
      rcases List.mem_cons.mp hb with h | h
      · subst h
        exact le_trans (le_max_right a b) (le_foldl_max t _)
      · exact mem_le_foldl_max t (max a x) b h

lemma foldl_max_cases : ∀ (l : List Int) (a : Int), l.foldl max a = a ∨ l.foldl max a ∈ l
  | [], _ => Or.inl rfl
  | x :: t, a => by
      rcases foldl_max_cases t (max a x) with h | h
      · rcases max_choice a x with hm | hm
        · exact Or.inl (by rw [List.foldl_cons, h, hm])
        · exact Or.inr (by rw [List.foldl_cons, h, hm]; exact List.mem_cons_self x t)
      · exact Or.inr (List.mem_cons_of_mem x (by rw [List.foldl_cons]; exact h))

lemma pyMax_mem_and_bound (l : List Int) (d : Int) (hl : l ≠ []) :
    pyMax l d ∈ l ∧ ∀ b ∈ l, b ≤ pyMax l d := by
  cases l with
  | nil => exact absurd rfl hl
  | cons x t =>
      constructor
      · show t.foldl max x ∈ x :: t
        rcases foldl_max_cases t x with h | h
        · rw [h]; exact List.mem_cons_self x t
        · exact List.mem_cons_of_mem x h
      · intro b hb
        rcases List.mem_cons.mp hb with h | h
        · subst h
          exact le_foldl_max t b
        · exact mem_le_foldl_max t x b h

lemma pyMax_perm {l₁ l₂ : List Int} (h : l₁.Perm l₂) (d : Int) :
    pyMax l₁ d = pyMax l₂ d := by
  cases l₁ with
  | nil =>
      have : l₂ = [] := h.symm.eq_nil
      rw [this]
  | cons x t =>
      have h₂ne : l₂ ≠ [] := by
        intro hc
        subst hc
        exact List.cons_ne_nil x t h.eq_nil
      obtain ⟨hm₁, hb₁⟩ := pyMax_mem_and_bound (x :: t) d (List.cons_ne_nil x t)
      obtain ⟨hm₂, hb₂⟩ := pyMax_mem_and_bound l₂ d h₂ne
      exact le_antisymm (hb₂ _ (h.mem_iff.mp hm₁)) (hb₁ _ (h.symm.mem_iff.mp hm₂))

/-! ## Python stable sort with key and reverse -/

/-- Key order for Python `list.sort(key=k)` (ascending). -/
def keyLE {α κ : Type} [LinearOrder κ] (k : α → κ) (a b : α) : Prop := k a ≤ k b

/-- Key order for Python `list.sort(key=k, reverse=True)` (descending). -/
def keyGE {α κ : Type} [LinearOrder κ] (k : α → κ) (a b : α) : Prop := k b ≤ k a

instance {α κ : Type} [LinearOrder κ] (k : α → κ) : DecidableRel (keyLE k) :=
  fun a b => inferInstanceAs (Decidable (k a ≤ k b))

instance {α κ : Type} [LinearOrder κ] (k : α → κ) : DecidableRel (keyGE k) :=
  fun a b => inferInstanceAs (Decidable (k b ≤ k a))

/-- Python `list.sort(key=k, reverse=rev)`: a stable sort, embedded as
insertion sort over the key preorder (insertion sort is stable, and all
stable sorts under the same preorder agree). -/
def pySortByKey {α κ : Type} [LinearOrder κ] (k : α → κ) (rev : Bool)
    (l : List α) : List α :=
  if rev then l.insertionSort (keyGE k) else l.insertionSort (keyLE k)

lemma pySortByKey_perm {α κ : Type} [LinearOrder κ] (k : α → κ) (rev : Bool)
    (l : List α) : (pySortByKey k rev l).Perm l := by
  unfold pySortByKey
  split
  · exact List.perm_insertionSort (keyGE k) l
  · exact List.perm_insertionSort (keyLE k) l

/-! ## The list pipelines of get_posts, get_comments and get_users -/

/-- The store-level filters of get_posts (src/routers/posts.py lines 56-65):
truthiness-guarded equality on owner_id, None-guarded equality on likes,
truthiness-guarded equality on publishDate (the query parameter is modelled
as an optional instant), and one case-insensitive `LIKE '%"tag"%'` test per
comma-separated tag (a NULL tags column matches no LIKE pattern). -/
def postsFilter (owner_id : Option String) (likes : Option Int)
    (publishDate : Option Int) (tags : Option String) (p : PostRec) : Bool :=
  (match owner_id with
    | none => true
    | some o => if o ≠ "" then p.owner_id == o else true) &&
  (match likes with
    | none => true
    | some n => p.likes == n) &&
  (match publishDate with
    | none => true
    | some d => p.publishDate == d) &&
  (match tags with
    | none => true
    | some ts =>
        if ts ≠ "" then
          ((pySplitOn ts ',').map (fun t => pyLower (pyStrip t))).all (fun t =>
            match p.tags with
            | none => false
            | some col => strContains (pyLower col) ("\"" ++ t ++ "\""))
        else true)

/-- The in-memory search of get_posts (lines 68-70): keep posts whose
accent-stripped lowercased text contains the normalized search term
(`text` is a non-nullable column, so `safe_str` is the identity here). -/
def postsSearch (search : Option String) (l : List PostRec) : List PostRec :=
  if pyTruthyStr search then
    l.filter (fun p =>
      strContains (pyLower (remove_accents p.text))
        (pyLower (remove_accents (search.getD ""))))
  else l

/-- The sort of get_posts (lines 72-78): stable sort on a whitelisted field,
strings compared accent-stripped and lowercased; any other sort_by leaves the
store order unchanged. -/
def postsSort (sort_by sort_order : String) (l : List PostRec) : List PostRec :=
  if sort_by == "text" then
    pySortByKey (fun p => pyLower (remove_accents p.text))
      (pyLower sort_order == "desc") l
  else if sort_by == "publishDate" then
    pySortByKey (fun p => p.publishDate) (pyLower sort_order == "desc") l
  else if sort_by == "likes" then
    pySortByKey (fun p => p.likes) (pyLower sort_order == "desc") l
  else l

/-- A list endpoint's response ingredients: the page slice, total, the echoed
page/limit, the pagination link targets, and the cache validator's
last-modified instant. -/
structure ListResult (α : Type) where
  data : List α
  total : Nat
  page : Int
  limit : Int
  links : PageLinks
  lastModified : Int
deriving DecidableEq

/-- src/routers/posts.py get_posts (lines 55-127): filter, search, sort,
paginate, build links and the cache metadata.  `now` is the clock value
`datetime.utcnow()` would deliver; the Last-Modified maximum ranges over
`posts_list`, the full filtered/searched/sorted collection (line 125). -/
def get_posts_core (db : List PostRec) (owner_id : Option String)
    (likes : Option Int) (publishDate : Option Int) (tags : Option String)
    (search : Option String) (sort_by sort_order : String)
    (page limit : Int) (now : Int) : ListResult PostRec :=
  let posts_list := postsSort sort_by sort_order
    (postsSearch search (db.filter (postsFilter owner_id likes publishDate tags)))
  { data := paginate posts_list page limit
    total := posts_list.length
    page := page
    limit := limit
    links := postsLinks posts_list.length page limit
    lastModified := pyMax (posts_list.map (fun p => p.publishDate)) now }

/-- The store-level filters of get_comments (src/routers/comments.py lines
56-61). -/
def commentsFilter (owner_id post_id : Option String) (publishDate : Option Int)
    (c : CommentRec) : Bool :=
  (match owner_id with
    | none => true
    | some o => if o ≠ "" then c.owner_id == o else true) &&
  (match post_id with
    | none => true
    | some o => if o ≠ "" then c.post_id == o else true) &&
  (match publishDate with
    | none => true
    | some d => c.publishDate == d)

/-- The in-memory search of get_comments (lines 64-69), on `message`. -/
def commentsSearch (search : Option String) (l : List CommentRec) : List CommentRec :=
  if pyTruthyStr search then
    l.filter (fun c =>
      strContains (pyLower (remove_accents c.message))
        (pyLower (remove_accents (search.getD ""))))
  else l

/-- The sort of get_comments (lines 71-77). -/
def commentsSort (sort_by sort_order : String) (l : List CommentRec) : List CommentRec :=
  if sort_by == "message" then
    pySortByKey (fun c => pyLower (remove_accents c.message))
      (pyLower sort_order == "desc") l
  else if sort_by == "publishDate" then
    pySortByKey (fun c => c.publishDate) (pyLower sort_order == "desc") l
  else l

/-- src/routers/comments.py get_comments (lines 55-129).  The links follow
the same last_page/prev/next computation as get_posts (the extra `self` link,
which always targets the requested page itself, is not modelled).  The
Last-Modified maximum ranges over `comments_list`, the full
filtered/searched/sorted collection (line 127). -/
def get_comments_core (db : List CommentRec) (owner_id post_id : Option String)
    (publishDate : Option Int) (search : Option String)
    (sort_by sort_order : String) (page limit : Int) (now : Int) :
    ListResult CommentRec :=
  let comments_list := commentsSort sort_by sort_order
    (commentsSearch search (db.filter (commentsFilter owner_id post_id publishDate)))
  { data := paginate comments_list page limit
    total := comments_list.length
    page := page
    limit := limit
    links := postsLinks comments_list.length page limit
    lastModified := pyMax (comments_list.map (fun c => c.publishDate)) now }

/-- The store-level filters of get_users (src/routers/users.py lines 59-64):
case-insensitive substring (`ilike '%v%'`) on firstName/lastName (with the
filter value accent-stripped first) and on email (not accent-stripped). -/
def usersFilter (firstName lastName email : Option String) (u : UserRec) : Bool :=
  (match firstName with
    | none => true
    | some f => if f ≠ "" then
        strContains (pyLower u.firstName) (pyLower (remove_accents f)) else true) &&
  (match lastName with
    | none => true
    | some f => if f ≠ "" then
        strContains (pyLower u.lastName) (pyLower (remove_accents f)) else true) &&
  (match email with
    | none => true
    | some e => if e ≠ "" then
        strContains (pyLower u.email) (pyLower e) else true)

/-- The in-memory search of get_users (lines 69-76): match on any of
firstName, lastName, email (all normalized). -/
def usersSearch (search : Option String) (l : List UserRec) : List UserRec :=
  if pyTruthyStr search then
    l.filter (fun u =>
      strContains (pyLower (remove_accents u.firstName))
        (pyLower (remove_accents (search.getD ""))) ||
      strContains (pyLower (remove_accents u.lastName))
        (pyLower (remove_accents (search.getD ""))) ||
      strContains (pyLower (remove_accents u.email))
        (pyLower (remove_accents (search.getD ""))))
  else l

/-- The sort of get_users (lines 79-86). -/
def usersSort (sort_by sort_order : String) (l : List UserRec) : List UserRec :=
  if sort_by == "firstName" then
    pySortByKey (fun u => pyLower (remove_accents u.firstName))
      (pyLower sort_order == "desc") l
  else if sort_by == "lastName" then
    pySortByKey (fun u => pyLower (remove_accents u.lastName))
      (pyLower sort_order == "desc") l
  else if sort_by == "email" then
    pySortByKey (fun u => pyLower (remove_accents u.email))
      (pyLower sort_order == "desc") l
  else if sort_by == "registerDate" then
    pySortByKey (fun u => u.registerDate) (pyLower sort_order == "desc") l
  else if sort_by == "dateOfBirth" then
    pySortByKey (fun u => u.dateOfBirth) (pyLower sort_order == "desc") l
  else l

/-- src/routers/users.py get_users (lines 54-143).  Note the deviations from
the other two list endpoints: the `last` link has no max-with-1 guard, next
is guarded by `page * limit < total`, and the Last-Modified maximum (lines
136-139) ranges over `users_page`, the PAGE SLICE, with the current time as
fallback when that slice is empty. -/
def get_users_core (db : List UserRec) (firstName lastName email search : Option String)
    (sort_by sort_order : String) (page limit : Int) (now : Int) : ListResult UserRec :=
  let users_list := usersSort sort_by sort_order
    (usersSearch search (db.filter (usersFilter firstName lastName email)))
  let users_page := paginate users_list page limit
  { data := users_page
    total := users_list.length
    page := page
    limit := limit
    links := usersLinks users_list.length page limit
    lastModified := pyMax (users_page.map (fun u => u.registerDate)) now }

lemma postsSort_perm (sort_by sort_order : String) (l : List PostRec) :
    (postsSort sort_by sort_order l).Perm l := by
  unfold postsSort
  split_ifs <;> first | exact pySortByKey_perm _ _ l | exact List.Perm.refl l

lemma commentsSort_perm (sort_by sort_order : String) (l : List CommentRec) :
    (commentsSort sort_by sort_order l).Perm l := by
  unfold commentsSort
  split_ifs <;> first | exact pySortByKey_perm _ _ l | exact List.Perm.refl l

lemma usersSort_perm (sort_by sort_order : String) (l : List UserRec) :
    (usersSort sort_by sort_order l).Perm l := by
  unfold usersSort
  split_ifs <;> first | exact pySortByKey_perm _ _ l | exact List.Perm.refl l

/-! ## Claims C1 and C5: Last-Modified scope and pagination slice -/

/-- C1 counterexample: on get_users the Last-Modified instant ranges over the
page slice, not the pre-pagination collection: over a two-user collection
(register instants 10 and 20, in store order, sort_by not whitelisted) page 1
with limit 1 yields 10 while limit 2 yields 20 — the value depends on limit,
and with limit 1 it differs from the filtered collection's maximum 20. -/
theorem c1_counterexample_users_lastModified :
    (get_users_core
      [⟨"u1", "a", "x", "ax", "t", 0, 10⟩, ⟨"u2", "b", "y", "by", "t", 0, 20⟩]
      none none none none "zzz" "asc" 1 1 0).lastModified = 10 ∧
    (get_users_core
      [⟨"u1", "a", "x", "ax", "t", 0, 10⟩, ⟨"u2", "b", "y", "by", "t", 0, 20⟩]
      none none none none "zzz" "asc" 1 2 0).lastModified = 20 ∧
    pyMax ((usersSearch none
      (([⟨"u1", "a", "x", "ax", "t", 0, 10⟩, ⟨"u2", "b", "y", "by", "t", 0, 20⟩] :
        List UserRec).filter (usersFilter none none none))).map
      (fun u => u.registerDate)) 0 = 20 := by
  refine ⟨by decide, by decide, by decide⟩

/-- C1 amended: for get_posts and get_comments the Last-Modified instant is
the maximum of the timestamp field over the filtered-and-searched collection
before pagination — independent of page and limit, with the current time when
that collection is empty.  For get_users it is instead the maximum over the
returned page slice (current time when the slice is empty), so it does depend
on page and limit. -/
theorem c1_last_modified_scope :
    (∀ (db : List PostRec) (owner_id : Option String) (likes : Option Int)
        (publishDate : Option Int) (tags search : Option String)
        (sort_by sort_order : String) (page limit page2 limit2 now : Int),
      (get_posts_core db owner_id likes publishDate tags search sort_by sort_order
          page limit now).lastModified
        = pyMax ((postsSearch search (db.filter
            (postsFilter owner_id likes publishDate tags))).map
            (fun p => p.publishDate)) now ∧
      (get_posts_core db owner_id likes publishDate tags search sort_by sort_order
          page limit now).lastModified
        = (get_posts_core db owner_id likes publishDate tags search sort_by sort_order
          page2 limit2 now).lastModified ∧
      (postsSearch search (db.filter (postsFilter owner_id likes publishDate tags)) = [] →
        (get_posts_core db owner_id likes publishDate tags search sort_by sort_order
          page limit now).lastModified = now)) ∧
    (∀ (db : List CommentRec) (owner_id post_id : Option String)
        (publishDate : Option Int) (search : Option String)
        (sort_by sort_order : String) (page limit page2 limit2 now : Int),
      (get_comments_core db owner_id post_id publishDate search sort_by sort_order
          page limit now).lastModified
        = pyMax ((commentsSearch search (db.filter
            (commentsFilter owner_id post_id publishDate))).map
            (fun c => c.publishDate)) now ∧
      (get_comments_core db owner_id post_id publishDate search sort_by sort_order
          page limit now).lastModified
        = (get_comments_core db owner_id post_id publishDate search sort_by sort_order
          page2 limit2 now).lastModified) ∧
    (∀ (db : List UserRec) (firstName lastName email search : Option String)
        (sort_by sort_order : String) (page limit now : Int),
      (get_users_core db firstName lastName email search sort_by sort_order
          page limit now).lastModified
        = pyMax ((paginate (usersSort sort_by sort_order (usersSearch search
            (db.filter (usersFilter firstName lastName email)))) page limit).map
            (fun u => u.registerDate)) now) := by
  refine ⟨?_, ?_, ?_⟩
  · intro db owner_id likes publishDate tags search sort_by sort_order page limit
      page2 limit2 now
    refine ⟨?_, rfl, ?_⟩
    · exact pyMax_perm
        ((postsSort_perm sort_by sort_order _).map (fun p => p.publishDate)) now
    · intro hempty
      show pyMax ((postsSort sort_by sort_order (postsSearch search
        (db.filter (postsFilter owner_id likes publishDate tags)))).map
        (fun p => p.publishDate)) now = now
      have hnil : postsSort sort_by sort_order (postsSearch search
          (db.filter (postsFilter owner_id likes publishDate tags))) = [] := by
        apply List.eq_nil_of_length_eq_zero
        rw [(postsSort_perm _ _ _).length_eq, hempty]
        rfl
      rw [hnil]
      rfl
  · intro db owner_id post_id publishDate search sort_by sort_order page limit
      page2 limit2 now
    refine ⟨?_, rfl⟩
    exact pyMax_perm
      ((commentsSort_perm sort_by sort_order _).map (fun c => c.publishDate)) now
  · intro db firstName lastName email search sort_by sort_order page limit now
    rfl

theorem c1_last_modified_scope_witness :
    (get_posts_core [] none none none none none "publishDate" "desc"
      1 10 77).lastModified = 77 :=
  (c1_last_modified_scope.1 [] none none none none none "publishDate" "desc"
    1 10 1 10 77).2.2 (by decide)

/-- C5: for `page ≥ 1` and `limit ≥ 1` the returned page is the slice of the
filtered+searched+sorted collection from `(page-1)*limit` to
`(page-1)*limit + limit`, so its length is at most `limit`; `total` is the
size of the filtered+searched collection, independent of page and limit; and
a page past the last page yields an empty slice rather than an error. -/
theorem c5_posts_pagination (db : List PostRec) (owner_id : Option String)
    (likes : Option Int) (publishDate : Option Int) (tags search : Option String)
    (sort_by sort_order : String) (page limit page2 limit2 now : Int)
    (hp : 1 ≤ page) (hl : 1 ≤ limit) :
    (get_posts_core db owner_id likes publishDate tags search sort_by sort_order
        page limit now).data
      = paginate (postsSort sort_by sort_order (postsSearch search
          (db.filter (postsFilter owner_id likes publishDate tags)))) page limit ∧
    (get_posts_core db owner_id likes publishDate tags search sort_by sort_order
        page limit now).data.length ≤ limit.toNat ∧
    (get_posts_core db owner_id likes publishDate tags search sort_by sort_order
        page limit now).total
      = (postsSearch search (db.filter
          (postsFilter owner_id likes publishDate tags))).length ∧
    (get_posts_core db owner_id likes publishDate tags search sort_by sort_order
        page limit now).total
      = (get_posts_core db owner_id likes publishDate tags search sort_by sort_order
        page2 limit2 now).total ∧
    (specLastPage (get_posts_core db owner_id likes publishDate tags search
        sort_by sort_order page limit now).total limit < page →
      (get_posts_core db owner_id likes publishDate tags search sort_by sort_order
        page limit now).data = []) := by
  refine ⟨rfl, paginate_length_le _ page limit hp hl,
    ((postsSort_perm sort_by sort_order _).length_eq), rfl, ?_⟩
  intro hpast
  exact paginate_empty_of_start_ge _ page limit hp hl
    (start_ge_of_past_lastPage _ page limit hl hpast)

theorem c5_posts_pagination_witness :
    (get_posts_core [] none none none none none "publishDate" "desc"
      3 10 0).data = [] := by
  have h := c5_posts_pagination [] none none none none none "publishDate" "desc"
    3 10 3 10 0 (by decide) (by decide)
  exact h.2.2.2.2 (by decide)

/-! ## Claim C10: update_post falsy coalescing -/

/-- The PostCreate payload fields consumed by update_post (`owner_id`
equality is checked before the merge; `link` is unused).  `likes` is
`Optional[int] = 0` and `image`/`tags` are `Optional` with falsy defaults. -/
structure PostCreatePayload where
  text : String
  owner_id : String
  tags : List String
  image : Option String
  likes : Option Int
deriving DecidableEq

/-- JSON string-character escape as `json.dumps` produces it (quote and
backslash; control characters do not occur in this repository's tags). -/
def jsonQuoteChar (c : Char) : List Char :=
  if c = '"' then ['\\', '"']
  else if c = '\\' then ['\\', '\\']
  else [c]

/-- A JSON string literal. -/
def jsonQuote (s : String) : String :=
  ⟨'"' :: ((s.data.map jsonQuoteChar).flatten ++ ['"'])⟩

/-- Comma-joined JSON string literals. -/
def jsonDumpsStrListAux : List String → String
  | [] => ""
  | [x] => jsonQuote x
  | x :: xs => jsonQuote x ++ ", " ++ jsonDumpsStrListAux xs

/-- Python `json.dumps` on a list of strings (default separators). -/
def jsonDumpsStrList (l : List String) : String :=
  "[" ++ jsonDumpsStrListAux l ++ "]"

/-- src/routers/posts.py update_post lines 223-226: text is overwritten;
image, likes and tags fall back to the stored value whenever the payload
value is falsy (`x if x else old` / `x or old`). -/
def update_post_merge (db_post : PostRec) (post_data : PostCreatePayload) : PostRec :=
  { db_post with
    text := post_data.text
    image := match post_data.image with
      | some s => if s ≠ "" then some s else db_post.image
      | none => db_post.image
    likes := match post_data.likes with
      | some n => if n ≠ 0 then n else db_post.likes
      | none => db_post.likes
    tags := if post_data.tags ≠ [] then some (jsonDumpsStrList post_data.tags)
      else db_post.tags }

lemma jsonDumpsStrListAux_cons_head (x : String) (xs : List String) :
    ∃ t : List Char, (jsonDumpsStrListAux (x :: xs)).data = '"' :: t := by
  cases xs with
  | nil => exact ⟨_, rfl⟩
  | cons y ys =>
      have hq : (jsonQuote x).data =
          '"' :: ((x.data.map jsonQuoteChar).flatten ++ ['"']) := rfl
      refine ⟨((x.data.map jsonQuoteChar).flatten ++ ['"']) ++
        (", ".data ++ (jsonDumpsStrListAux (y :: ys)).data), ?_⟩
      show ((jsonQuote x ++ ", ") ++ jsonDumpsStrListAux (y :: ys)).data = _
      simp only [String.data_append, hq, List.cons_append, List.append_assoc]

lemma jsonDumps_cons_ne_nil_dump (x : String) (xs : List String) :
    jsonDumpsStrList (x :: xs) ≠ jsonDumpsStrList [] := by
  intro hcon
  obtain ⟨t, ht⟩ := jsonDumpsStrListAux_cons_head x xs
  have hdata := congrArg String.data hcon
  rw [jsonDumpsStrList, jsonDumpsStrList, String.data_append, String.data_append,
    ht] at hdata
  have h0 : ("[" ++ jsonDumpsStrListAux [] ++ "]").data = ['[', ']'] := rfl
  rw [h0] at hdata
  simp at hdata

/-- C10: update_post silently coalesces falsy payload values to the stored
values: likes 0 (or null) leaves likes unchanged, tags [] leaves tags
unchanged, an absent or empty image leaves the image unchanged — so no
update can set likes to 0 (when nonzero), clear the tag list, or clear the
image, while text is always overwritten. -/
theorem c10_update_post_falsy_coalesce (db_post : PostRec)
    (post_data : PostCreatePayload) :
    (update_post_merge db_post post_data).text = post_data.text ∧
    (post_data.likes = some 0 ∨ post_data.likes = none →
      (update_post_merge db_post post_data).likes = db_post.likes) ∧
    (post_data.tags = [] →
      (update_post_merge db_post post_data).tags = db_post.tags) ∧
    (post_data.image = none ∨ post_data.image = some "" →
      (update_post_merge db_post post_data).image = db_post.image) ∧
    (db_post.likes ≠ 0 → (update_post_merge db_post post_data).likes ≠ 0) ∧
    (db_post.tags ≠ some (jsonDumpsStrList []) →
      (update_post_merge db_post post_data).tags ≠ some (jsonDumpsStrList [])) ∧
    (db_post.image ≠ none → (update_post_merge db_post post_data).image ≠ none) := by
  refine ⟨rfl, ?_, ?_, ?_, ?_, ?_, ?_⟩
  · rintro (h | h) <;> simp [update_post_merge, h]
  · intro h
    simp [update_post_merge, h]
  · rintro (h | h) <;> simp [update_post_merge, h]
  · intro h
    rcases hlk : post_data.likes with _ | n
    · simpa [update_post_merge, hlk] using h
    · by_cases hn : n = 0
      · simpa [update_post_merge, hlk, hn] using h
      · simp [update_post_merge, hlk, hn]
  · intro h
    rcases hp : post_data.tags with _ | ⟨x, xs⟩
    · simpa [update_post_merge, hp] using h
    · have hrw : (update_post_merge db_post post_data).tags
          = some (jsonDumpsStrList (x :: xs)) := by
        simp [update_post_merge, hp]
      rw [hrw]
      intro hcon
      exact jsonDumps_cons_ne_nil_dump x xs (Option.some_inj.mp hcon)
  · intro h
    rcases him : post_data.image with _ | s
    · simpa [update_post_merge, him] using h
    · by_cases hs : s = ""
      · simpa [update_post_merge, him, hs] using h
      · simp [update_post_merge, him, hs]

theorem c10_update_post_falsy_coalesce_witness :
    (update_post_merge ⟨"p1", "old text", "u1", 5, some "img", 7, some "[\x22a\x22]"⟩
      ⟨"new text", "u1", [], none, some 0⟩).likes = 7 :=
  (c10_update_post_falsy_coalesce
    ⟨"p1", "old text", "u1", 5, some "img", 7, some "[\x22a\x22]"⟩
    ⟨"new text", "u1", [], none, some 0⟩).2.1 (Or.inl rfl)
